import Mathlib

/-!
Verification development for the randomized small-world graph index
implemented in `similarity_search/src/method/small_world_rand.cc`.

The embedding is a shallow, executable model of the single-threaded
semantics of the method:

* a graph state `SWState` holds the published node list `ElList_`, and the
  per-node `addIndex_` and `friends_` fields (nodes are identified by
  natural-number ids; payloads are kept opaque and distances are supplied
  as functions `NodeId → Int`);
* the C++ priority queues are modelled as sorted lists
  (`priority_queue<EvaluatedMSWNodeReverse>` is min-first,
  `priority_queue<dist_t>` and `priority_queue<EvaluatedMSWNodeDirect>` are
  max-first);
* `rand()` is modelled by an oracle `seeds : Nat → Nat` giving the value of
  the i-th call, and the unbounded `while` loops are fueled, with a
  distinguished `noFuel` outcome;
* undefined behaviour of the C++ source (dereferencing the NULL entry point
  of an empty graph, out-of-range `vector<bool>` access) is modelled by a
  distinguished `ub` outcome;
* the traversal states carry a ghost trace `evals` recording every distance
  evaluation, used to state how often a node is evaluated.
-/

namespace SmallWorld

abbrev NodeId := Nat

/-- Sentinel value of an uninitialized `addIndex_` field, i.e.
`numeric_limits<size_t>::max()` on a 64-bit platform. -/
def SENTINEL : Nat := 2 ^ 64 - 1

/-- Graph state: the published nodes in append order (`ElList_`) together
with every node's `addIndex_` and `friends_` fields. -/
structure SWState where
  elList   : List NodeId
  addIndex : NodeId → Nat
  friends  : NodeId → List NodeId

/-- Fresh index state: no published nodes; every node has a sentinel
`addIndex_` and an empty friends list (a freshly constructed `MSWNode`). -/
def emptyState : SWState :=
  { elList := [], addIndex := fun _ => SENTINEL, friends := fun _ => [] }

/-- `SmallWorldRand::addCriticalSection` (lines 358-364): under the list
guard, set the node's `addIndex_` to the current list size, then push it. -/
def addCriticalSection (s : SWState) (x : NodeId) : SWState :=
  { s with addIndex := Function.update s.addIndex x s.elList.length,
           elList := s.elList ++ [x] }

/-- `MSWNode::removeAllFriends` on the new element (line 327). -/
def removeAllFriends (s : SWState) (x : NodeId) : SWState :=
  { s with friends := Function.update s.friends x [] }

/-- Append `b` to the friends list of `a` (`MSWNode::addFriend`). -/
def addFriend (s : SWState) (a b : NodeId) : SWState :=
  { s with friends := Function.update s.friends a (s.friends a ++ [b]) }

/-- Modelled from the spec: `link(first, second)` is declared in the
method's header, which is not among the provided sources.  Spec section 4.5
describes it as bidirectional friending with no deduplication: each endpoint
is appended to the other endpoint's friends list. -/
def link (s : SWState) (a b : NodeId) : SWState :=
  addFriend (addFriend s a b) b a

/-- The link loop of `add` (lines 349-352): pop the result queue (max
distance first) and link each popped node to the new element. -/
def linkAll (s : SWState) (rs : List (Int × NodeId)) (x : NodeId) : SWState :=
  rs.foldl (fun st p => link st p.2 x) s

/-- `SmallWorldRand::getRandomEntryPoint` (lines 204-214): NULL (`none`) iff
the list is empty, otherwise the element at `rand() % size`. -/
def getRandomEntryPoint (s : SWState) (r : Nat) : Option NodeId :=
  if s.elList.length = 0 then none else s.elList[r % s.elList.length]?

/-- Push into the min-first candidate queue
(`priority_queue<EvaluatedMSWNodeReverse>`: top = smallest distance). -/
def insertAsc (p : Int × NodeId) : List (Int × NodeId) → List (Int × NodeId)
  | [] => [p]
  | q :: qs => if p.1 < q.1 then p :: q :: qs else q :: insertAsc p qs

/-- Push into the max-first distance queue (`priority_queue<dist_t>`:
top = largest value). -/
def insertDesc (v : Int) : List Int → List Int
  | [] => [v]
  | w :: ws => if v > w then v :: w :: ws else w :: insertDesc v ws

/-- Push into the max-first result queue
(`priority_queue<EvaluatedMSWNodeDirect>`: top = largest distance). -/
def insertResDesc (p : Int × NodeId) : List (Int × NodeId) → List (Int × NodeId)
  | [] => [p]
  | q :: qs => if p.1 > q.1 then p :: q :: qs else q :: insertResDesc p qs

/-- State of one call to `kSearchElementsWithAttempts`.  `result` and
`bitset` persist across restart attempts, `cands` and `closest` are reset by
each attempt.  `evals` is a ghost trace of all distance evaluations. -/
structure TravState where
  cands   : List (Int × NodeId)
  closest : List Int
  result  : List (Int × NodeId)
  bitset  : List Bool
  evals   : List NodeId
  deriving DecidableEq, Repr

/-- Cap a max-first distance queue at `NN` entries by popping its top
(lines 307-309). -/
def capDesc (NN : Nat) (l : List Int) : List Int :=
  if NN < l.length then l.tail else l

/-- Cap the max-first result queue at `NN` entries by popping its top
(lines 314-316). -/
def capResDesc (NN : Nat) (l : List (Int × NodeId)) : List (Int × NodeId) :=
  if NN < l.length then l.tail else l

/-- The result-queue admission test
`resultSet.size() < NN || resultSet.top().getDistance() > d` (line 312);
the top is read only when the size test fails, so an empty queue with
`NN = 0` (undefined behaviour in the source) is modelled as no admission. -/
def admitResult (NN : Nat) (rs : List (Int × NodeId)) (dv : Int) : Bool :=
  if rs.length < NN then true
  else
    match rs.head? with
    | some p => decide (dv < p.1)
    | none => false

/-- Evaluate one unvisited neighbor (lines 298-317): guarded bitset mark,
distance evaluation, capped closest-distance push, candidate push, and
conditional capped result push. -/
def evalNeighbor (s : SWState) (d : NodeId → Int) (NN entryQty : Nat)
    (st : TravState) (nb : NodeId) : TravState :=
  { cands := insertAsc (d nb, nb) st.cands,
    closest := capDesc NN (insertDesc (d nb) st.closest),
    result := if admitResult NN st.result (d nb)
              then capResDesc NN (insertResDesc (d nb, nb) st.result)
              else st.result,
    bitset := if s.addIndex nb < entryQty then st.bitset.set (s.addIndex nb) true else st.bitset,
    evals := st.evals ++ [nb] }

/-- The visited test of line 297 with its short-circuit:
`nodeAddIndex >= entryQty || !visitedBitset[nodeAddIndex]`; the bitset is
read only when the index is below the snapshot size. -/
def notVisited (entryQty : Nat) (bitset : List Bool) (idx : Nat) : Bool :=
  if entryQty ≤ idx then true else !(bitset.getD idx false)

/-- Neighbor processing step of the index-time traversal (lines 283-319). -/
def processNeighbor (s : SWState) (d : NodeId → Int) (NN entryQty : Nat)
    (st : TravState) (nb : NodeId) : TravState :=
  if notVisited entryQty st.bitset (s.addIndex nb) then evalNeighbor s d NN entryQty st nb
  else st

/-- Outcomes that interrupt a traversal: undefined behaviour of the source
(`ub`) or exhaustion of the loop fuel (`noFuel`). -/
inductive TravStop where
  | ub
  | noFuel
  deriving DecidableEq, Repr

/-- The best-first `while` loop of `kSearchElementsWithAttempts`
(lines 259-320), fueled. -/
def innerLoop (s : SWState) (d : NodeId → Int) (NN entryQty : Nat) :
    Nat → TravState → Except TravStop TravState
  | 0, _ => .error .noFuel
  | fuel + 1, st =>
    match st.cands with
    | [] => .ok st
    | (cd, cn) :: rest =>
      match st.closest.head? with
      | none => .error .ub
      | some lowerBound =>
        if lowerBound < cd then .ok st
        else
          innerLoop s d NN entryQty fuel
            ((s.friends cn).foldl (processNeighbor s d NN entryQty) { st with cands := rest })

/-- One restart attempt of `kSearchElementsWithAttempts` (lines 231-257 and
the loop): fresh candidate and closest-distance queues, the seed's distance
is computed, the seed is marked in the bitset only when its `addIndex_` is
below the snapshot size, and the seed is emplaced into the result queue
without any size-cap check. -/
def oneAttempt (s : SWState) (d : NodeId → Int) (NN entryQty fuel : Nat)
    (r : Nat) (st : TravState) : Except TravStop TravState :=
  match getRandomEntryPoint s r with
  | none => .error .ub
  | some provider =>
    let dv := d provider
    let st1 : TravState :=
      { cands := [(dv, provider)],
        closest := [dv],
        result := insertResDesc (dv, provider) st.result,
        bitset := if s.addIndex provider < entryQty then st.bitset.set (s.addIndex provider) true
                  else st.bitset,
        evals := st.evals ++ [provider] }
    innerLoop s d NN entryQty fuel st1

/-- The attempts loop of `kSearchElementsWithAttempts` (line 231): `rem`
attempts remain, `i` is the index of the next `rand()` draw. -/
def attemptsGo (s : SWState) (d : NodeId → Int) (NN entryQty fuel : Nat) (seeds : Nat → Nat) :
    Nat → Nat → TravState → Except TravStop TravState
  | 0, _, st => .ok st
  | rem + 1, i, st =>
    match oneAttempt s d NN entryQty fuel (seeds i) st with
    | .error e => .error e
    | .ok st1 => attemptsGo s d NN entryQty fuel seeds rem (i + 1) st1

/-- `SmallWorldRand::kSearchElementsWithAttempts` (lines 216-322): snapshot
the graph size, allocate the visited bitset of that fixed size, run the
restart attempts. -/
def kSearchElementsWithAttempts (s : SWState) (d : NodeId → Int) (NN attempts : Nat)
    (seeds : Nat → Nat) (fuel : Nat) : Except TravStop TravState :=
  attemptsGo s d NN s.elList.length fuel seeds attempts 0
    { cands := [], closest := [], result := [], bitset := List.replicate s.elList.length false,
      evals := [] }

/-- Result of `SmallWorldRand::add`: a thrown `runtime_error` (with the
state at the throw), an interrupted traversal, or normal completion. -/
inductive AddResult where
  | thrown (msg : String) (after : SWState)
  | stop (e : TravStop)
  | ok (after : SWState)

def AddResult.isOk : AddResult → Bool
  | .ok _ => true
  | _ => false

/-- `SmallWorldRand::add` (lines 325-356): clear the new element's friends,
throw on an empty graph, run the index-time traversal, link every result to
the new element, then publish it via `addCriticalSection`. -/
def add (s : SWState) (d : NodeId → Int) (x : NodeId) (NN attempts : Nat)
    (seeds : Nat → Nat) (fuel : Nat) : AddResult :=
  if (removeAllFriends s x).elList.isEmpty then
    .thrown "Bug: the list of nodes shouldn't be empty!" (removeAllFriends s x)
  else
    match kSearchElementsWithAttempts (removeAllFriends s x) d NN attempts seeds fuel with
    | .error e => .stop e
    | .ok tst => .ok (addCriticalSection (linkAll (removeAllFriends s x) tst.result x) x)

/-- The observable state-changing events of `add` after its traversal:
linking a traversal result to the new element, and publishing the new
element. -/
inductive AddEvent where
  | linkEv (r x : NodeId)
  | publishEv (x : NodeId)
  deriving DecidableEq, Repr

def applyEvent (s : SWState) : AddEvent → SWState
  | .linkEv r x => link s r x
  | .publishEv x => addCriticalSection s x

/-- Event sequence of `add` for result set `rs` and new element `x`: one
link per result entry (in pop order), then the publication. -/
def addEvents (rs : List (Int × NodeId)) (x : NodeId) : List AddEvent :=
  rs.map (fun p => AddEvent.linkEv p.2 x) ++ [AddEvent.publishEv x]

/-- Outcomes that interrupt a k-NN query: undefined behaviour (`ub`),
fuel exhaustion, or a thrown `runtime_error`. -/
inductive QStop where
  | ub
  | noFuel
  | thrown (msg : String)
  deriving DecidableEq, Repr

/-- State of one call to `Search(KNNQuery*)`.  `bitset` and the ghost report
trace persist across attempts; queues are reset per attempt.  `reports`
records every `CheckAndAddToResult` call, in order. -/
structure QState where
  cands   : List (Int × NodeId)
  closest : List Int
  bitset  : List Bool
  reports : List (Int × NodeId)
  deriving DecidableEq, Repr

/-- Neighbor processing of the query-time loop (lines 415-432): sentinel
`addIndex_` throws, out-of-range bitset access is undefined behaviour,
unvisited neighbors are evaluated, marked, queued, and reported. -/
def processNeighborQ (s : SWState) (d : NodeId → Int) (NN : Nat)
    (acc : Except QStop QState) (nb : NodeId) : Except QStop QState :=
  match acc with
  | .error e => .error e
  | .ok st =>
    let idx := s.addIndex nb
    if idx = SENTINEL then .error (.thrown "Bug: uninitialized addIndex_")
    else
      match st.bitset[idx]? with
      | none => .error .ub
      | some visited =>
        if visited then .ok st
        else
          let dv := d nb
          .ok { cands := insertAsc (dv, nb) st.cands,
                closest :=
                  (let c1 := insertDesc dv st.closest
                   if NN < c1.length then c1.tail else c1),
                bitset := st.bitset.set idx true,
                reports := st.reports ++ [(dv, nb)] }

/-- The query-time `while` loop (lines 397-434), fueled. -/
def queryLoop (s : SWState) (d : NodeId → Int) (NN : Nat) :
    Nat → QState → Except QStop QState
  | 0, _ => .error .noFuel
  | fuel + 1, st =>
    match st.cands with
    | [] => .ok st
    | (cd, cn) :: rest =>
      match st.closest.head? with
      | none => .error .ub
      | some lowerBound =>
        if lowerBound < cd then .ok st
        else
          match (s.friends cn).foldl (processNeighborQ s d NN) (.ok { st with cands := rest }) with
          | .error e => .error e
          | .ok st1 => queryLoop s d NN fuel st1

/-- One attempt of `Search(KNNQuery*)` (lines 375-395 and the loop): the
NULL entry point of an empty graph is dereferenced (undefined behaviour), a
sentinel `addIndex_` throws, and the entry point's distance is computed but
`CheckAndAddToResult` is never called for it. -/
def queryAttempt (s : SWState) (d : NodeId → Int) (NN fuel r : Nat) (st : QState) :
    Except QStop QState :=
  match getRandomEntryPoint s r with
  | none => .error .ub
  | some provider =>
    let dv := d provider
    if s.addIndex provider = SENTINEL then .error (.thrown "Bug: uninitialized addIndex_")
    else if s.addIndex provider < st.bitset.length then
      queryLoop s d NN fuel
        { cands := [(dv, provider)], closest := [dv],
          bitset := st.bitset.set (s.addIndex provider) true, reports := st.reports }
    else .error .ub

/-- The attempts loop of `Search(KNNQuery*)` (line 375). -/
def searchGo (s : SWState) (d : NodeId → Int) (NN fuel : Nat) (seeds : Nat → Nat) :
    Nat → Nat → QState → Except QStop QState
  | 0, _, st => .ok st
  | rem + 1, i, st =>
    match queryAttempt s d NN fuel (seeds i) st with
    | .error e => .error e
    | .ok st1 => searchGo s d NN fuel seeds rem (i + 1) st1

/-- `SmallWorldRand::Search(KNNQuery*)` (lines 371-436): a fixed bitset of
the current graph size shared by all attempts; the value is the sequence of
`CheckAndAddToResult` calls made on the query collector. -/
def SearchKNN (s : SWState) (d : NodeId → Int) (NN attempts : Nat) (seeds : Nat → Nat)
    (fuel : Nat) : Except QStop (List (Int × NodeId)) :=
  match searchGo s d NN fuel seeds attempts 0
      { cands := [], closest := [], bitset := List.replicate s.elList.length false,
        reports := [] } with
  | .error e => .error e
  | .ok st => .ok st.reports

/-- `SmallWorldRand::Search(RangeQuery*)` (lines 366-369): the body is a
single unconditional throw. -/
def SearchRange (_s : SWState) : Except String Unit :=
  .error "Range search is not supported!"

/-- Raw method parameters handed to the constructor (`AnyParams`). -/
structure MethParams where
  NN : Option Nat
  initIndexAttempts : Option Nat
  initSearchAttempts : Option Nat
  indexThreadQty : Option Nat

/-- Effective parameters after the constructor's `GetParamOptional` calls. -/
structure IndexParams where
  NN : Nat
  initIndexAttempts : Nat
  initSearchAttempts : Nat
  indexThreadQty : Nat

/-- Parameter reading of the constructor (lines 105-119): defaults NN=5,
initIndexAttempts=2, initSearchAttempts=10, indexThreadQty=0 without OpenMP;
`GetParamOptional` performs no validation of any value. -/
def readParams (p : MethParams) : IndexParams :=
  { NN := p.NN.getD 5,
    initIndexAttempts := p.initIndexAttempts.getD 2,
    initSearchAttempts := p.initSearchAttempts.getD 10,
    indexThreadQty := p.indexThreadQty.getD 0 }

/-- Result of index construction. -/
inductive BuildResult where
  | ok (s : SWState)
  | thrown (msg : String)
  | stop (e : TravStop)

/-- Sequential insertion loop of the constructor (lines 140-144):
`dist x y` is `IndexTimeDistance` between the payloads of `x` and `y`. -/
def buildGo (dist : NodeId → NodeId → Int) (NN attempts : Nat) (seeds : Nat → Nat)
    (fuel : Nat) : List NodeId → SWState → BuildResult
  | [], s => .ok s
  | x :: xs, s =>
    match add s (dist x) x NN attempts seeds fuel with
    | .thrown m _ => .thrown m
    | .stop e => .stop e
    | .ok s1 => buildGo dist NN attempts seeds fuel xs s1

/-- `SmallWorldRand` constructor (lines 100-163), single-threaded path
(`indexThreadQty <= 1`): empty data gives an empty index, otherwise the
first element is published via `addCriticalSection` before the remaining
elements are inserted with `add`. -/
def buildIndex (data : List NodeId) (dist : NodeId → NodeId → Int) (p : MethParams)
    (seeds : Nat → Nat) (fuel : Nat) : BuildResult :=
  let ip := readParams p
  match data with
  | [] => .ok emptyState
  | x :: xs => buildGo dist ip.NN ip.initIndexAttempts seeds fuel xs (addCriticalSection emptyState x)

/-- Repeated `addCriticalSection` starting from a given state. -/
def appendAll (s : SWState) (xs : List NodeId) : SWState :=
  xs.foldl addCriticalSection s

/-- Number of unset entries of the visited bitset. -/
def countFalse (l : List Bool) : Nat := l.count false

/-- Termination measure of the index-time traversal loop. -/
def travMeasure (st : TravState) : Nat := st.cands.length + 2 * countFalse st.bitset

/-- The index-time traversal terminates when some fuel suffices. -/
def TravTerminates (s : SWState) (d : NodeId → Int) (NN attempts : Nat)
    (seeds : Nat → Nat) : Prop :=
  ∃ fuel tr, kSearchElementsWithAttempts s d NN attempts seeds fuel = .ok tr

/-- A graph holding exactly one published node `a`. -/
def oneNodeGraph (a : NodeId) : SWState := addCriticalSection emptyState a

/-- Concrete graph: published node 10 (addIndex 0) whose friend 20 and the
further node 30 both carry the sentinel `addIndex_`, with 20 and 30
mutually adjacent. -/
def G9 : SWState :=
  { elList := [10],
    addIndex := Function.update (fun _ => SENTINEL) 10 0,
    friends := fun n => if n = 10 then [20] else if n = 20 then [30] else if n = 30 then [20] else [] }

/-- Concrete graph: published node 10 (addIndex 0) and a sentinel-indexed
node 20, mutually adjacent. -/
def G4 : SWState :=
  { elList := [10],
    addIndex := Function.update (fun _ => SENTINEL) 10 0,
    friends := fun n => if n = 10 then [20] else if n = 20 then [10] else [] }

/-- Friends list of a node after a successful `add`, `none` on failure. -/
def newFriends (r : AddResult) (x : NodeId) : Option (List NodeId) :=
  match r with
  | .ok s => some (s.friends x)
  | _ => none

lemma bitset_length_evalNeighbor (s : SWState) (d : NodeId → Int) (NN entryQty : Nat)
    (st : TravState) (nb : NodeId) :
    (evalNeighbor s d NN entryQty st nb).bitset.length = st.bitset.length := by
  unfold evalNeighbor
  dsimp only
  split <;> simp

lemma bitset_length_processNeighbor (s : SWState) (d : NodeId → Int) (NN entryQty : Nat)
    (st : TravState) (nb : NodeId) :
    (processNeighbor s d NN entryQty st nb).bitset.length = st.bitset.length := by
  unfold processNeighbor
  split
  · exact bitset_length_evalNeighbor s d NN entryQty st nb
  · rfl

lemma bitset_length_fold (s : SWState) (d : NodeId → Int) (NN entryQty : Nat) :
    ∀ (nbs : List NodeId) (st : TravState),
    (nbs.foldl (processNeighbor s d NN entryQty) st).bitset.length = st.bitset.length := by
  intro nbs
  induction nbs with
  | nil => intro st; rfl
  | cons nb nbs ih =>
    intro st
    rw [List.foldl_cons, ih, bitset_length_processNeighbor]

lemma bitset_length_innerLoop (s : SWState) (d : NodeId → Int) (NN entryQty : Nat) :
    ∀ (fuel : Nat) (st tr : TravState),
    innerLoop s d NN entryQty fuel st = .ok tr → tr.bitset.length = st.bitset.length := by
  intro fuel
  induction fuel with
  | zero =>
    intro st tr h
    exact absurd h (by simp [innerLoop])
  | succ f ih =>
    intro st tr h
    unfold innerLoop at h
    split at h
    · cases h; rfl
    · split at h
      · exact absurd h (by simp)
      · split at h
        · cases h; rfl
        · rw [ih _ _ h, bitset_length_fold]

lemma bitset_length_oneAttempt (s : SWState) (d : NodeId → Int) (NN entryQty fuel r : Nat)
    (st tr : TravState) (h : oneAttempt s d NN entryQty fuel r st = .ok tr) :
    tr.bitset.length = st.bitset.length := by
  unfold oneAttempt at h
  split at h
  · exact absurd h (by simp)
  · have hl := bitset_length_innerLoop s d NN entryQty fuel _ tr h
    rw [hl]
    split <;> simp

lemma bitset_length_attemptsGo (s : SWState) (d : NodeId → Int) (NN entryQty fuel : Nat)
    (seeds : Nat → Nat) :
    ∀ (rem i : Nat) (st tr : TravState),
    attemptsGo s d NN entryQty fuel seeds rem i st = .ok tr →
    tr.bitset.length = st.bitset.length := by
  intro rem
  induction rem with
  | zero =>
    intro i st tr h
    unfold attemptsGo at h
    cases h; rfl
  | succ n ih =>
    intro i st tr h
    unfold attemptsGo at h
    split at h
    · exact absurd h (by simp)
    · next st1 heq =>
      rw [ih _ _ _ h, bitset_length_oneAttempt s d NN entryQty fuel _ st st1 heq]

lemma bitset_length_kSearch (s : SWState) (d : NodeId → Int) (NN attempts : Nat)
    (seeds : Nat → Nat) (fuel : Nat) (tr : TravState)
    (h : kSearchElementsWithAttempts s d NN attempts seeds fuel = .ok tr) :
    tr.bitset.length = s.elList.length := by
  unfold kSearchElementsWithAttempts at h
  have := bitset_length_attemptsGo s d NN s.elList.length fuel seeds attempts 0 _ tr h
  simpa using this

/-- C1: building from the single-element sequence `D = [A]` (node id 0)
yields a graph with exactly one published node whose friends list is empty;
but a 1-NN query whose query object is `A` (all distances 0, default
parameters NN=5, initSearchAttempts=10) makes no `CheckAndAddToResult` call
at all: the entry point's distance is computed, yet the collector is never
told about `A`, so the claimed "reports A at distance 0" fails on the code. -/
theorem C1_single_element_build_and_query :
    buildIndex [0] (fun _ _ => 0) ⟨none, none, none, none⟩ (fun _ => 0) 100 = .ok (oneNodeGraph 0) ∧
    (oneNodeGraph 0).elList.length = 1 ∧
    (oneNodeGraph 0).friends 0 = [] ∧
    SearchKNN (oneNodeGraph 0) (fun _ => 0) 5 10 (fun _ => 0) 100 = .ok [] :=
  ⟨rfl, rfl, rfl, rfl⟩

/-- C3: constructing the index with the non-positive parameter `NN = 0` is
not rejected: `GetParamOptional` stores 0 without any positivity check and
the constructor completes normally, contradicting the claimed parameter
error. -/
theorem C3_nonpositive_NN_accepted :
    (readParams ⟨some 0, none, none, none⟩).NN = 0 ∧
    buildIndex [0] (fun _ _ => 0) ⟨some 0, none, none, none⟩ (fun _ => 0) 100 =
      .ok (oneNodeGraph 0) :=
  ⟨rfl, rfl⟩

/-- C7: the range-query entry point always fails with the "unsupported"
error; its body is a single unconditional throw, independent of the index
state. -/
theorem C7_range_query_unsupported (s : SWState) :
    SearchRange s = .error "Range search is not supported!" :=
  rfl

/-- C6: calling `add` on an empty graph throws the fatal invariant error
before any traversal or linking; the graph is unmodified (the only mutation
before the throw is clearing the unpublished new element's friends list). -/
theorem C6_add_empty_graph_throws (s : SWState) (d : NodeId → Int) (x : NodeId)
    (NN attempts : Nat) (seeds : Nat → Nat) (fuel : Nat) (h : s.elList = []) :
    add s d x NN attempts seeds fuel =
      .thrown "Bug: the list of nodes shouldn't be empty!" (removeAllFriends s x) ∧
    (removeAllFriends s x).elList = s.elList ∧
    (removeAllFriends s x).addIndex = s.addIndex ∧
    ∀ n, n ≠ x → (removeAllFriends s x).friends n = s.friends n := by
  refine ⟨?_, rfl, rfl, ?_⟩
  · unfold add
    simp [removeAllFriends, h]
  · intro n hn
    simp [removeAllFriends, Function.update_noteq hn]

theorem C6_add_empty_graph_throws_witness :
    add emptyState (fun _ => 0) 5 3 2 (fun _ => 0) 10 =
      .thrown "Bug: the list of nodes shouldn't be empty!" (removeAllFriends emptyState 5) ∧
    (removeAllFriends emptyState 5).elList = emptyState.elList ∧
    (removeAllFriends emptyState 5).addIndex = emptyState.addIndex ∧
    ∀ n, n ≠ 5 → (removeAllFriends emptyState 5).friends n = emptyState.friends n :=
  C6_add_empty_graph_throws emptyState (fun _ => 0) 5 3 2 (fun _ => 0) 10 rfl

/-- C10: on a graph with zero published nodes, `getRandomEntryPoint`
returns NULL and `Search(KNNQuery*)` dereferences it without a check, so
the k-NN search has no defined result (modelled as the `ub` outcome),
whereas `add` on the same empty graph performs its explicit emptiness check
and throws a defined error. -/
theorem C10_search_empty_graph_undefined (s : SWState) (d : NodeId → Int)
    (NN attempts : Nat) (seeds : Nat → Nat) (fuel r : Nat)
    (h : s.elList = []) (ha : 1 ≤ attempts) :
    getRandomEntryPoint s r = none ∧
    SearchKNN s d NN attempts seeds fuel = .error .ub ∧
    ∀ x, add s d x NN attempts seeds fuel =
      .thrown "Bug: the list of nodes shouldn't be empty!" (removeAllFriends s x) := by
  obtain ⟨a, rfl⟩ := Nat.exists_eq_add_of_le ha
  refine ⟨by simp [getRandomEntryPoint, h], ?_, ?_⟩
  · have h1 : (1 : Nat) + a = a + 1 := Nat.add_comm 1 a
    rw [h1]
    unfold SearchKNN searchGo queryAttempt
    simp [getRandomEntryPoint, h]
  · intro x
    unfold add
    simp [removeAllFriends, h]

theorem C10_search_empty_graph_undefined_witness :
    getRandomEntryPoint emptyState 0 = none ∧
    SearchKNN emptyState (fun _ => 0) 5 10 (fun _ => 0) 100 = .error .ub ∧
    ∀ x, add emptyState (fun _ => 0) x 5 10 (fun _ => 0) 100 =
      .thrown "Bug: the list of nodes shouldn't be empty!" (removeAllFriends emptyState x) :=
  C10_search_empty_graph_undefined emptyState (fun _ => 0) 5 10 (fun _ => 0) 100 0 rfl
    (by decide)

/-- C2 counterexample: inserting node 9 into the one-node graph `[7]`
(`N0 = 1`) with the default parameters `NN = 5`, `initIndexAttempts = 2`
gives node 9 the friends list `[7, 7]` of size 2, not
`min NN N0 = min 5 1 = 1`: each restart attempt emplaced the seed 7 into
the result set without the size-cap check. -/
theorem C2_counterexample :
    newFriends (add (oneNodeGraph 7) (fun _ => 3) 9 5 2 (fun _ => 0) 10) 9 = some [7, 7] ∧
    ([7, 7] : List NodeId).length ≠ min 5 1 :=
  ⟨rfl, by decide⟩

lemma appendAll_elList : ∀ (xs : List NodeId) (s : SWState),
    (appendAll s xs).elList = s.elList ++ xs := by
  intro xs
  induction xs with
  | nil => intro s; simp [appendAll]
  | cons x xs ih =>
    intro s
    have h1 : appendAll s (x :: xs) = appendAll (addCriticalSection s x) xs := rfl
    rw [h1, ih]
    simp [addCriticalSection]

lemma appendAll_map_addIndex : ∀ (xs : List NodeId) (s : SWState),
    xs.Nodup → (∀ x ∈ xs, x ∉ s.elList) →
    (appendAll s xs).elList.map (appendAll s xs).addIndex =
      s.elList.map s.addIndex ++ List.range' s.elList.length xs.length := by
  intro xs
  induction xs with
  | nil => intro s _ _; simp [appendAll]
  | cons x xs ih =>
    intro s hnd hdisj
    have hx : x ∉ s.elList := hdisj x (List.mem_cons_self x xs)
    have hxxs : x ∉ xs := (List.nodup_cons.mp hnd).1
    have hnd' : xs.Nodup := (List.nodup_cons.mp hnd).2
    have hdisj' : ∀ y ∈ xs, y ∉ (addCriticalSection s x).elList := by
      intro y hy
      have hys : y ∉ s.elList := hdisj y (List.mem_cons_of_mem x hy)
      have hyx : y ≠ x := by
        intro h
        rw [h] at hy
        exact hxxs hy
      simp [addCriticalSection, hys, hyx]
    have h1 : appendAll s (x :: xs) = appendAll (addCriticalSection s x) xs := rfl
    rw [h1, ih (addCriticalSection s x) hnd' hdisj']
    have h2 : (addCriticalSection s x).elList.map (addCriticalSection s x).addIndex =
        s.elList.map s.addIndex ++ [s.elList.length] := by
      simp only [addCriticalSection, List.map_append, List.map_cons, List.map_nil]
      rw [Function.update_same]
      congr 1
      refine List.map_congr_left fun y hy => Function.update_noteq ?_ _ _
      intro h
      rw [h] at hy
      exact hx hy
    have h3 : (addCriticalSection s x).elList.length = s.elList.length + 1 := by
      simp [addCriticalSection]
    rw [h2, h3, List.append_assoc, List.singleton_append, ← List.range'_succ]
    simp

/-- C5: appending N distinct fresh nodes to the empty graph via
`addCriticalSection` yields exactly those N nodes in append order, and the
`assign_index` values read off in append order are exactly 0, 1, ..., N-1:
each append stores the current graph size as the node's index and then
pushes the node. -/
theorem C5_density (xs : List NodeId) (h : xs.Nodup) :
    (appendAll emptyState xs).elList = xs ∧
    (appendAll emptyState xs).elList.length = xs.length ∧
    (appendAll emptyState xs).elList.map (appendAll emptyState xs).addIndex =
      List.range xs.length := by
  have h1 := appendAll_elList xs emptyState
  have h2 := appendAll_map_addIndex xs emptyState h (by intro y hy; simp [emptyState])
  refine ⟨by simpa [emptyState] using h1, ?_, ?_⟩
  · rw [h1]
    simp [emptyState]
  · simpa [emptyState, List.range_eq_range'] using h2

theorem C5_density_witness :
    (appendAll emptyState [3, 1, 2]).elList = [3, 1, 2] ∧
    (appendAll emptyState [3, 1, 2]).elList.length = [3, 1, 2].length ∧
    (appendAll emptyState [3, 1, 2]).elList.map (appendAll emptyState [3, 1, 2]).addIndex =
      List.range [3, 1, 2].length :=
  C5_density [3, 1, 2] (by decide)

lemma foldl_addEvents (s : SWState) (rs : List (Int × NodeId)) (x : NodeId) :
    (addEvents rs x).foldl applyEvent s = addCriticalSection (linkAll s rs x) x := by
  unfold addEvents linkAll
  rw [List.foldl_append, List.foldl_map]
  rfl

lemma link_elList (s : SWState) (a b : NodeId) : (link s a b).elList = s.elList := rfl

lemma foldl_linkEvents_elList : ∀ (evs : List AddEvent) (t : SWState),
    (∀ e ∈ evs, ∃ r y, e = AddEvent.linkEv r y) →
    (evs.foldl applyEvent t).elList = t.elList := by
  intro evs
  induction evs with
  | nil => intro t _; rfl
  | cons e evs ih =>
    intro t hall
    obtain ⟨r, y, rfl⟩ := hall e (List.mem_cons_self e evs)
    rw [List.foldl_cons, ih _ fun e' he' => hall e' (List.mem_cons_of_mem _ he')]
    rfl

/-- C8: whenever `add` completes normally, its net effect on the graph is
that of an event sequence consisting of one link per traversal-result entry
followed, last, by the publication of the new node; in particular after any
proper prefix of those events the new node is still absent from the graph's
node list, so the graph never contains a node whose insert-time links are
pending. -/
theorem C8_publish_after_linking (s : SWState) (d : NodeId → Int) (x : NodeId)
    (NN attempts : Nat) (seeds : Nat → Nat) (fuel : Nat)
    (hx : x ∉ s.elList)
    (hok : (add s d x NN attempts seeds fuel).isOk = true) :
    ∃ rs s1,
      add s d x NN attempts seeds fuel = .ok s1 ∧
      s1 = (addEvents rs x).foldl applyEvent (removeAllFriends s x) ∧
      (addEvents rs x).getLast? = some (.publishEv x) ∧
      (∀ e ∈ addEvents rs x, e ≠ .publishEv x → ∃ r, e = .linkEv r x) ∧
      (∀ k < (addEvents rs x).length,
        x ∉ (((addEvents rs x).take k).foldl applyEvent (removeAllFriends s x)).elList) := by
  unfold add at hok ⊢
  by_cases he : (removeAllFriends s x).elList.isEmpty
  · rw [if_pos he] at hok
    exact absurd hok (by simp [AddResult.isOk])
  · rw [if_neg he] at hok ⊢
    cases hk : kSearchElementsWithAttempts (removeAllFriends s x) d NN attempts seeds fuel with
    | error e =>
      rw [hk] at hok
      exact absurd hok (by simp [AddResult.isOk])
    | ok tst =>
      refine ⟨tst.result, _, rfl, (foldl_addEvents _ _ _).symm, List.getLast?_concat _, ?_, ?_⟩
      · intro e he' hne
        rcases List.mem_append.mp he' with hmap | hpub
        · obtain ⟨p, _, rfl⟩ := List.mem_map.mp hmap
          exact ⟨p.2, rfl⟩
        · exact absurd (List.mem_singleton.mp hpub) hne
      · intro k hk'
        have hklen : k ≤ (tst.result.map (fun p => AddEvent.linkEv p.2 x)).length := by
          simpa [addEvents] using Nat.lt_succ_iff.mp (by simpa [addEvents] using hk')
        rw [addEvents, List.take_append_of_le_length hklen]
        rw [foldl_linkEvents_elList _ _ ?_]
        · simpa [removeAllFriends] using hx
        · intro e he'
          obtain ⟨p, _, rfl⟩ := List.mem_map.mp (List.mem_of_mem_take he')
          exact ⟨p.2, x, rfl⟩

/-- Traversal state of one call to `kSearchElementsWithAttempts` on `G4`
with `NN = 5`, two attempts seeded at node 10, and distance 0 everywhere:
the sentinel-indexed node 20 is distance-evaluated in both attempts. -/
def tr4 : TravState :=
  { cands := [], closest := [0, 0], result := [(0, 10), (0, 20), (0, 10), (0, 20)],
    bitset := [true], evals := [10, 20, 10, 20] }

/-- Intermediate traversal state used to instantiate the C4 theorem. -/
def qst4 : TravState :=
  { cands := [], closest := [0], result := [(0, 10)], bitset := [true], evals := [10] }

/-- C4: an encountered neighbor whose `addIndex_` is at least the snapshot
size (in particular the sentinel, which is at least any feasible size) is
treated as not visited and is not recorded: the bitset is unchanged while
the neighbor is distance-evaluated; the bitset is never grown (its length
after any successful traversal equals the snapshot size with which it was
allocated); and such a node can be distance-evaluated more than once within
one insertion, as on `G4` where the sentinel-indexed node 20 is evaluated
twice. -/
theorem C4_unmarked_neighbors :
    (∀ (s : SWState) (d : NodeId → Int) (NN entryQty : Nat) (st : TravState) (nb : NodeId),
        entryQty ≤ s.addIndex nb →
        (processNeighbor s d NN entryQty st nb).bitset = st.bitset ∧
        (processNeighbor s d NN entryQty st nb).evals = st.evals ++ [nb]) ∧
    (∀ (s : SWState) (d : NodeId → Int) (NN attempts : Nat) (seeds : Nat → Nat)
        (fuel : Nat) (tr : TravState),
        kSearchElementsWithAttempts s d NN attempts seeds fuel = .ok tr →
        tr.bitset.length = s.elList.length) ∧
    kSearchElementsWithAttempts G4 (fun _ => 0) 5 2 (fun _ => 0) 100 = .ok tr4 ∧
    tr4.evals.count 20 = 2 := by
  refine ⟨?_, ?_, rfl, rfl⟩
  · intro s d NN entryQty st nb h
    constructor <;>
      simp [processNeighbor, notVisited, evalNeighbor, h, Nat.not_lt.mpr h]
  · intro s d NN attempts seeds fuel tr h
    exact bitset_length_kSearch s d NN attempts seeds fuel tr h

theorem C4_unmarked_neighbors_witness :
    ((processNeighbor G4 (fun _ => 0) 5 1 qst4 20).bitset = qst4.bitset ∧
      (processNeighbor G4 (fun _ => 0) 5 1 qst4 20).evals = qst4.evals ++ [20]) ∧
    tr4.bitset.length = G4.elList.length :=
  ⟨C4_unmarked_neighbors.1 G4 (fun _ => 0) 5 1 qst4 20 (by decide),
   C4_unmarked_neighbors.2.1 G4 (fun _ => 0) 5 2 (fun _ => 0) 100 tr4
     C4_unmarked_neighbors.2.2.1⟩

lemma oneNode_elList (A x : NodeId) :
    (removeAllFriends (oneNodeGraph A) x).elList = [A] := rfl

lemma oneNode_friends (A x n : NodeId) :
    (removeAllFriends (oneNodeGraph A) x).friends n = [] := by
  simp [removeAllFriends, oneNodeGraph, addCriticalSection, emptyState, Function.update_apply]

lemma oneNode_addIndex (A x : NodeId) :
    (removeAllFriends (oneNodeGraph A) x).addIndex A = 0 := by
  simp [removeAllFriends, oneNodeGraph, addCriticalSection, emptyState]

lemma getRandomEntryPoint_oneNode (A x : NodeId) (r : Nat) :
    getRandomEntryPoint (removeAllFriends (oneNodeGraph A) x) r = some A := by
  simp [getRandomEntryPoint, removeAllFriends, oneNodeGraph, addCriticalSection, emptyState,
    Nat.mod_one]

lemma length_insertAsc (p : Int × NodeId) : ∀ l, (insertAsc p l).length = l.length + 1 := by
  intro l
  induction l with
  | nil => rfl
  | cons q qs ih => by_cases h : p.1 < q.1 <;> simp [insertAsc, h, ih]

lemma length_insertDesc (v : Int) : ∀ l, (insertDesc v l).length = l.length + 1 := by
  intro l
  induction l with
  | nil => rfl
  | cons w ws ih => by_cases h : v > w <;> simp [insertDesc, h, ih]

lemma length_insertResDesc (p : Int × NodeId) :
    ∀ l, (insertResDesc p l).length = l.length + 1 := by
  intro l
  induction l with
  | nil => rfl
  | cons q qs ih => by_cases h : p.1 > q.1 <;> simp [insertResDesc, h, ih]

lemma mem_insertResDesc (p q : Int × NodeId) :
    ∀ l, q ∈ insertResDesc p l → q = p ∨ q ∈ l := by
  intro l
  induction l with
  | nil =>
    intro h
    simp [insertResDesc] at h
    exact .inl h
  | cons a as ih =>
    intro h
    by_cases hc : p.1 > a.1
    · simp only [insertResDesc, if_pos hc] at h
      rcases List.mem_cons.mp h with h1 | h1
      · exact .inl h1
      · exact .inr h1
    · simp only [insertResDesc, if_neg hc] at h
      rcases List.mem_cons.mp h with h1 | h1
      · exact .inr (h1 ▸ List.mem_cons_self a as)
      · rcases ih h1 with h2 | h2
        · exact .inl h2
        · exact .inr (List.mem_cons_of_mem a h2)

lemma oneAttempt_oneNode (A x : NodeId) (d : NodeId → Int) (NN fuel r : Nat)
    (st : TravState) (hfuel : 2 ≤ fuel) :
    oneAttempt (removeAllFriends (oneNodeGraph A) x) d NN 1 fuel r st =
      .ok { cands := [], closest := [d A],
            result := insertResDesc (d A, A) st.result,
            bitset := st.bitset.set 0 true,
            evals := st.evals ++ [A] } := by
  obtain ⟨f, rfl⟩ : ∃ f, fuel = f + 1 + 1 := ⟨fuel - 2, by omega⟩
  unfold oneAttempt
  rw [getRandomEntryPoint_oneNode]
  dsimp only
  rw [oneNode_addIndex]
  norm_num
  simp only [innerLoop, List.head?_cons, lt_self_iff_false, if_false, oneNode_friends,
    List.foldl_nil]

lemma attemptsGo_oneNode (A x : NodeId) (d : NodeId → Int) (NN fuel : Nat)
    (seeds : Nat → Nat) (hfuel : 2 ≤ fuel) :
    ∀ (rem i : Nat) (st : TravState),
    ∃ tr, attemptsGo (removeAllFriends (oneNodeGraph A) x) d NN 1 fuel seeds rem i st = .ok tr ∧
      tr.result.length = st.result.length + rem ∧
      ∀ p ∈ tr.result, p ∈ st.result ∨ p = (d A, A) := by
  intro rem
  induction rem with
  | zero =>
    intro i st
    exact ⟨st, rfl, by simp, fun p hp => .inl hp⟩
  | succ n ih =>
    intro i st
    obtain ⟨tr, htr, hlen, hmem⟩ := ih (i + 1)
      { cands := [], closest := [d A], result := insertResDesc (d A, A) st.result,
        bitset := st.bitset.set 0 true, evals := st.evals ++ [A] }
    refine ⟨tr, ?_, ?_, ?_⟩
    · unfold attemptsGo
      rw [oneAttempt_oneNode A x d NN fuel (seeds i) st hfuel]
      exact htr
    · rw [hlen]
      dsimp only
      rw [length_insertResDesc]
      omega
    · intro p hp
      rcases hmem p hp with h | h
      · rcases mem_insertResDesc (d A, A) p st.result h with h1 | h1
        · exact .inr h1
        · exact .inl h1
      · exact .inr h

lemma kSearch_oneNode (A x : NodeId) (d : NodeId → Int) (NN attempts : Nat)
    (seeds : Nat → Nat) (fuel : Nat) (hfuel : 2 ≤ fuel) :
    ∃ tr, kSearchElementsWithAttempts (removeAllFriends (oneNodeGraph A) x) d NN attempts
        seeds fuel = .ok tr ∧
      tr.result.length = attempts ∧ ∀ p ∈ tr.result, p = (d A, A) := by
  unfold kSearchElementsWithAttempts
  obtain ⟨tr, htr, hlen, hmem⟩ := attemptsGo_oneNode A x d NN fuel seeds hfuel attempts 0
    { cands := [], closest := [], result := [],
      bitset := List.replicate (removeAllFriends (oneNodeGraph A) x).elList.length false,
      evals := [] }
  rw [oneNode_elList]
  refine ⟨tr, ?_, ?_, ?_⟩
  · rw [show ([A] : List NodeId).length = 1 from rfl]
    exact htr
  · simpa using hlen
  · intro p hp
    rcases hmem p hp with h | h
    · exact absurd h (List.not_mem_nil p)
    · exact h

lemma addCriticalSection_friends (t : SWState) (x : NodeId) :
    (addCriticalSection t x).friends = t.friends := rfl

lemma link_friends_x (t : SWState) (a x : NodeId) (h : a ≠ x) :
    (link t a x).friends x = t.friends x ++ [a] := by
  unfold link addFriend
  dsimp only
  rw [Function.update_same, Function.update_noteq (fun hh => h hh.symm)]

lemma linkAll_friends_length :
    ∀ (rs : List (Int × NodeId)) (t : SWState) (x : NodeId),
    (∀ p ∈ rs, p.2 ≠ x) →
    ((linkAll t rs x).friends x).length = (t.friends x).length + rs.length := by
  intro rs
  induction rs with
  | nil => intro t x _; simp [linkAll]
  | cons p ps ih =>
    intro t x hall
    have h1 : linkAll t (p :: ps) x = linkAll (link t p.2 x) ps x := rfl
    rw [h1, ih (link t p.2 x) x fun q hq => hall q (List.mem_cons_of_mem p hq)]
    rw [link_friends_x t p.2 x (hall p (List.mem_cons_self p ps))]
    simp
    omega

/-- C2 amended: after `add(space, x)` on a graph of size `N0 = 1` with `a`
restart attempts, `x`'s friends list has size exactly `a` (each attempt
emplaces the single seed into the result set without the size-cap check,
and every result entry produces one link), so the size equals
`min(NN, N0) = 1` only when `initIndexAttempts = 1`; in general the friends
list size is the traversal result-set size, not `min(NN, N0)`. -/
theorem C2_amended_degree (A x : NodeId) (d : NodeId → Int) (NN attempts : Nat)
    (seeds : Nat → Nat) (fuel : Nat) (hAx : A ≠ x) (hfuel : 2 ≤ fuel) :
    ∃ s1, add (oneNodeGraph A) d x NN attempts seeds fuel = .ok s1 ∧
      (s1.friends x).length = attempts := by
  obtain ⟨tr, htr, hlen, hmem⟩ := kSearch_oneNode A x d NN attempts seeds fuel hfuel
  unfold add
  rw [if_neg (by rw [oneNode_elList]; simp), htr]
  refine ⟨_, rfl, ?_⟩
  rw [show (addCriticalSection
        (linkAll (removeAllFriends (oneNodeGraph A) x) tr.result x) x).friends x =
      (linkAll (removeAllFriends (oneNodeGraph A) x) tr.result x).friends x from rfl]
  rw [linkAll_friends_length tr.result _ x ?_]
  · rw [oneNode_friends]
    simpa using hlen
  · intro p hp
    rw [hmem p hp]
    exact fun h => hAx h

theorem C2_amended_degree_witness :
    ∃ s1, add (oneNodeGraph 7) (fun _ => 3) 9 5 2 (fun _ => 0) 10 = .ok s1 ∧
      (s1.friends 9).length = 2 :=
  C2_amended_degree 7 9 (fun _ => 3) 5 2 (fun _ => 0) 10 (by decide) (by decide)

theorem C8_publish_after_linking_witness :
    ∃ rs s1,
      add (oneNodeGraph 7) (fun _ => 3) 9 5 2 (fun _ => 0) 10 = .ok s1 ∧
      s1 = (addEvents rs 9).foldl applyEvent (removeAllFriends (oneNodeGraph 7) 9) ∧
      (addEvents rs 9).getLast? = some (.publishEv 9) ∧
      (∀ e ∈ addEvents rs 9, e ≠ .publishEv 9 → ∃ r, e = .linkEv r 9) ∧
      (∀ k < (addEvents rs 9).length,
        9 ∉ (((addEvents rs 9).take k).foldl applyEvent (removeAllFriends (oneNodeGraph 7) 9)).elList) :=
  C8_publish_after_linking (oneNodeGraph 7) (fun _ => 3) 9 5 2 (fun _ => 0) 10
    (by decide) (by rfl)

/-- Cycling traversal state on `G9` with the frontier at node 20. -/
def stB (e : List NodeId) : TravState :=
  { cands := [(0, 20)], closest := [0], result := [(0, 10)], bitset := [true], evals := e }

/-- Cycling traversal state on `G9` with the frontier at node 30. -/
def stC (e : List NodeId) : TravState :=
  { cands := [(0, 30)], closest := [0], result := [(0, 10)], bitset := [true], evals := e }

lemma G9_step_B (f : Nat) (e : List NodeId) :
    innerLoop G9 (fun _ => 0) 1 1 (f + 1) (stB e) =
      innerLoop G9 (fun _ => 0) 1 1 f (stC (e ++ [30])) := rfl

lemma G9_step_C (f : Nat) (e : List NodeId) :
    innerLoop G9 (fun _ => 0) 1 1 (f + 1) (stC e) =
      innerLoop G9 (fun _ => 0) 1 1 f (stB (e ++ [20])) := rfl

lemma G9_cycle : ∀ f : Nat,
    (∀ e, innerLoop G9 (fun _ => 0) 1 1 f (stB e) = .error .noFuel) ∧
    (∀ e, innerLoop G9 (fun _ => 0) 1 1 f (stC e) = .error .noFuel) := by
  intro f
  induction f with
  | zero => exact ⟨fun _ => rfl, fun _ => rfl⟩
  | succ g ih =>
    exact ⟨fun e => (G9_step_B g e).trans (ih.2 _),
           fun e => (G9_step_C g e).trans (ih.1 _)⟩

lemma innerLoop_G9_start : ∀ fuel : Nat,
    innerLoop G9 (fun _ => 0) 1 1 fuel
      { cands := [(0, 10)], closest := [0], result := [(0, 10)], bitset := [true],
        evals := [10] } = .error .noFuel := by
  intro fuel
  cases fuel with
  | zero => rfl
  | succ f =>
    have hstep : innerLoop G9 (fun _ => 0) 1 1 (f + 1)
        { cands := [(0, 10)], closest := [0], result := [(0, 10)], bitset := [true],
          evals := [10] } =
        innerLoop G9 (fun _ => 0) 1 1 f (stB [10, 20]) := rfl
    exact hstep.trans ((G9_cycle f).1 _)

lemma kSearch_G9_noFuel : ∀ fuel : Nat,
    kSearchElementsWithAttempts G9 (fun _ => 0) 1 1 (fun _ => 0) fuel = .error .noFuel := by
  intro fuel
  have h := innerLoop_G9_start fuel
  show (match innerLoop G9 (fun _ => 0) 1 1 fuel
        { cands := [(0, 10)], closest := [0], result := [(0, 10)], bitset := [true],
          evals := [10] } with
      | .error e => (.error e : Except TravStop TravState)
      | .ok st1 => attemptsGo G9 (fun _ => 0) 1 1 fuel (fun _ => 0) 0 1 st1) = .error .noFuel
  rw [h]

/-- C9 counterexample: the index-time traversal does not terminate on every
finite graph: on `G9` (one published node whose friend 20 and the node 30
carry sentinel `addIndex_` values and are mutually adjacent, all distances
equal) the loop re-pushes the two unmarkable nodes forever, so no fuel
suffices. -/
theorem C9_counterexample : ¬ TravTerminates G9 (fun _ => 0) 1 1 (fun _ => 0) := by
  rintro ⟨fuel, tr, h⟩
  rw [kSearch_G9_noFuel fuel] at h
  exact Except.noConfusion h

lemma countFalse_le_length (l : List Bool) : countFalse l ≤ l.length :=
  List.count_le_length false l

lemma countFalse_set_true : ∀ (l : List Bool) (i : Nat), l[i]? = some false →
    countFalse (l.set i true) + 1 = countFalse l := by
  intro l
  induction l with
  | nil => intro i h; simp at h
  | cons a t ih =>
    intro i h
    cases i with
    | zero =>
      rw [List.getElem?_cons_zero] at h
      obtain rfl : a = false := by simpa using h
      simp [countFalse, List.count_cons]
    | succ j =>
      rw [List.getElem?_cons_succ] at h
      have hj := ih j h
      have hset : (a :: t).set (j + 1) true = a :: t.set j true := rfl
      rw [hset]
      unfold countFalse at hj ⊢
      rw [List.count_cons, List.count_cons]
      omega

lemma insertDesc_ne_nil (v : Int) : ∀ l, insertDesc v l ≠ [] := by
  intro l
  cases l with
  | nil => simp [insertDesc]
  | cons w ws =>
    unfold insertDesc
    split <;> simp

lemma travMeasure_processNeighbor (s : SWState) (d : NodeId → Int) (NN entryQty : Nat)
    (st : TravState) (nb : NodeId)
    (hidx : s.addIndex nb < entryQty) (hlen : st.bitset.length = entryQty) :
    travMeasure (processNeighbor s d NN entryQty st nb) ≤ travMeasure st := by
  unfold processNeighbor
  split
  · next hnv =>
    have hnle : ¬ entryQty ≤ s.addIndex nb := Nat.not_le.mpr hidx
    unfold notVisited at hnv
    rw [if_neg hnle] at hnv
    have h2 : st.bitset.getD (s.addIndex nb) false = false := by
      cases hb : st.bitset.getD (s.addIndex nb) false
      · rfl
      · rw [hb] at hnv
        exact absurd hnv (by decide)
    have h3 : s.addIndex nb < st.bitset.length := hlen ▸ hidx
    have hread : st.bitset[s.addIndex nb]? = some false := by
      rw [List.getElem?_eq_getElem h3]
      rw [List.getD_eq_getElem?_getD, List.getElem?_eq_getElem h3] at h2
      simpa using h2
    have hset := countFalse_set_true st.bitset (s.addIndex nb) hread
    unfold evalNeighbor travMeasure
    dsimp only
    rw [if_pos hidx, length_insertAsc]
    omega
  · exact le_refl _

lemma closest_ne_nil_processNeighbor (s : SWState) (d : NodeId → Int) (NN entryQty : Nat)
    (st : TravState) (nb : NodeId) (hNN : 1 ≤ NN) (h : st.closest ≠ []) :
    (processNeighbor s d NN entryQty st nb).closest ≠ [] := by
  unfold processNeighbor
  split
  · unfold evalNeighbor capDesc
    dsimp only
    split
    · next hlt =>
      have hl := length_insertDesc (d nb) st.closest
      intro hnil
      have hzero : (insertDesc (d nb) st.closest).tail.length = 0 := by rw [hnil]; rfl
      rw [List.length_tail] at hzero
      omega
    · exact insertDesc_ne_nil (d nb) st.closest
  · exact h

lemma fold_neighbors_inv (s : SWState) (d : NodeId → Int) (NN entryQty : Nat) (hNN : 1 ≤ NN) :
    ∀ (nbs : List NodeId) (st : TravState),
    (∀ m ∈ nbs, s.addIndex m < entryQty) →
    st.bitset.length = entryQty → st.closest ≠ [] →
    travMeasure (nbs.foldl (processNeighbor s d NN entryQty) st) ≤ travMeasure st ∧
    (nbs.foldl (processNeighbor s d NN entryQty) st).bitset.length = entryQty ∧
    (nbs.foldl (processNeighbor s d NN entryQty) st).closest ≠ [] := by
  intro nbs
  induction nbs with
  | nil => intro st _ h1 h2; exact ⟨le_refl _, h1, h2⟩
  | cons m ms ih =>
    intro st hall hlen hne
    have hm := hall m (List.mem_cons_self m ms)
    have h1 := travMeasure_processNeighbor s d NN entryQty st m hm hlen
    have h2 : (processNeighbor s d NN entryQty st m).bitset.length = entryQty := by
      rw [bitset_length_processNeighbor]; exact hlen
    have h3 := closest_ne_nil_processNeighbor s d NN entryQty st m hNN hne
    obtain ⟨g1, g2, g3⟩ := ih (processNeighbor s d NN entryQty st m)
      (fun q hq => hall q (List.mem_cons_of_mem _ hq)) h2 h3
    rw [List.foldl_cons]
    exact ⟨le_trans g1 h1, g2, g3⟩

lemma innerLoop_term (s : SWState) (d : NodeId → Int) (NN entryQty : Nat) (hNN : 1 ≤ NN)
    (hval : ∀ n m, m ∈ s.friends n → s.addIndex m < entryQty) :
    ∀ (fuel : Nat) (st : TravState),
    st.bitset.length = entryQty → st.closest ≠ [] → travMeasure st < fuel →
    ∃ tr, innerLoop s d NN entryQty fuel st = .ok tr := by
  intro fuel
  induction fuel with
  | zero =>
    intro st _ _ h
    exact absurd h (Nat.not_lt_zero _)
  | succ f ih =>
    intro st hlen hne hm
    cases hcs : st.cands with
    | nil => exact ⟨st, by simp [innerLoop, hcs]⟩
    | cons c rest =>
      obtain ⟨cd, cn⟩ := c
      cases hcl : st.closest with
      | nil => exact absurd hcl hne
      | cons lb ls =>
        by_cases hbr : lb < cd
        · exact ⟨st, by simp [innerLoop, hcs, hcl, hbr]⟩
        · have hst1len : (TravState.mk rest st.closest st.result st.bitset st.evals).bitset.length
              = entryQty := hlen
          have hst1ne : (TravState.mk rest st.closest st.result st.bitset st.evals).closest
              ≠ [] := hne
          obtain ⟨g1, g2, g3⟩ := fold_neighbors_inv s d NN entryQty hNN (s.friends cn)
            (TravState.mk rest st.closest st.result st.bitset st.evals)
            (fun m hmm => hval cn m hmm) hst1len hst1ne
          have e1 : travMeasure st =
              travMeasure (TravState.mk rest st.closest st.result st.bitset st.evals) + 1 := by
            unfold travMeasure
            rw [hcs]
            simp
            omega
          have hm1 : travMeasure ((s.friends cn).foldl (processNeighbor s d NN entryQty)
              (TravState.mk rest st.closest st.result st.bitset st.evals)) < f := by
            omega
          obtain ⟨tr, htr⟩ := ih _ g2 g3 hm1
          refine ⟨tr, ?_⟩
          have hred : innerLoop s d NN entryQty (f + 1) st =
              innerLoop s d NN entryQty f ((s.friends cn).foldl (processNeighbor s d NN entryQty)
                { st with cands := rest }) := by
            simp [innerLoop, hcs, hcl, hbr]
          rw [hred]
          have hrec : ({ st with cands := rest } : TravState) =
              TravState.mk rest st.closest st.result st.bitset st.evals := rfl
          rw [hrec]
          exact htr

lemma oneAttempt_term (s : SWState) (d : NodeId → Int) (NN entryQty : Nat) (hNN : 1 ≤ NN)
    (hval : ∀ n m, m ∈ s.friends n → s.addIndex m < entryQty)
    (hne : s.elList ≠ []) (r : Nat) (st : TravState)
    (hlen : st.bitset.length = entryQty) :
    ∃ tr, oneAttempt s d NN entryQty (2 + 2 * entryQty) r st = .ok tr ∧
      tr.bitset.length = entryQty := by
  obtain ⟨p, hp⟩ : ∃ p, getRandomEntryPoint s r = some p := by
    unfold getRandomEntryPoint
    have hpos : 0 < s.elList.length := List.length_pos.mpr hne
    rw [if_neg (by omega)]
    have hlt : r % s.elList.length < s.elList.length := Nat.mod_lt _ hpos
    exact ⟨_, List.getElem?_eq_getElem hlt⟩
  unfold oneAttempt
  rw [hp]
  dsimp only
  have hlen1 : (if s.addIndex p < entryQty then st.bitset.set (s.addIndex p) true
      else st.bitset).length = entryQty := by
    split <;> simp [hlen]
  have hcf : countFalse (if s.addIndex p < entryQty then st.bitset.set (s.addIndex p) true
      else st.bitset) ≤ entryQty := by
    calc countFalse _ ≤ _ := countFalse_le_length _
      _ = entryQty := hlen1
  have hmeas : travMeasure
      { cands := [(d p, p)], closest := [d p],
        result := insertResDesc (d p, p) st.result,
        bitset := if s.addIndex p < entryQty then st.bitset.set (s.addIndex p) true
                  else st.bitset,
        evals := st.evals ++ [p] } < 2 + 2 * entryQty := by
    unfold travMeasure
    dsimp only
    simp only [List.length_cons, List.length_nil]
    omega
  obtain ⟨tr, htr⟩ := innerLoop_term s d NN entryQty hNN hval (2 + 2 * entryQty)
    { cands := [(d p, p)], closest := [d p],
      result := insertResDesc (d p, p) st.result,
      bitset := if s.addIndex p < entryQty then st.bitset.set (s.addIndex p) true
                else st.bitset,
      evals := st.evals ++ [p] }
    hlen1 (by simp) hmeas
  refine ⟨tr, htr, ?_⟩
  rw [bitset_length_innerLoop s d NN entryQty (2 + 2 * entryQty) _ tr htr]
  exact hlen1

lemma attemptsGo_term (s : SWState) (d : NodeId → Int) (NN entryQty : Nat) (hNN : 1 ≤ NN)
    (hval : ∀ n m, m ∈ s.friends n → s.addIndex m < entryQty)
    (hne : s.elList ≠ []) (seeds : Nat → Nat) :
    ∀ (rem i : Nat) (st : TravState), st.bitset.length = entryQty →
    ∃ tr, attemptsGo s d NN entryQty (2 + 2 * entryQty) seeds rem i st = .ok tr := by
  intro rem
  induction rem with
  | zero => intro i st _; exact ⟨st, rfl⟩
  | succ n ih =>
    intro i st hlen
    obtain ⟨st1, h1, hl1⟩ := oneAttempt_term s d NN entryQty hNN hval hne (seeds i) st hlen
    obtain ⟨tr, htr⟩ := ih (i + 1) st1 hl1
    refine ⟨tr, ?_⟩
    unfold attemptsGo
    rw [h1]
    exact htr

/-- C9 amended: the index-time traversal terminates on every finite graph
in which every friends-list entry's `addIndex_` is below the snapshot graph
size (so every reachable node can be marked visited), provided NN is
positive and the graph is nonempty; fuel `2 + 2N` per attempt suffices.
With sentinel-indexed (or late-published) mutually adjacent nodes and tied
distances the loop can run forever, as the counterexample graph shows. -/
theorem C9_amended_termination (s : SWState) (d : NodeId → Int) (NN attempts : Nat)
    (seeds : Nat → Nat) (hNN : 1 ≤ NN) (hne : s.elList ≠ [])
    (hval : ∀ n m, m ∈ s.friends n → s.addIndex m < s.elList.length) :
    TravTerminates s d NN attempts seeds := by
  obtain ⟨tr, htr⟩ := attemptsGo_term s d NN s.elList.length hNN hval hne seeds attempts 0
    { cands := [], closest := [], result := [],
      bitset := List.replicate s.elList.length false, evals := [] }
    (by simp)
  exact ⟨2 + 2 * s.elList.length, tr, htr⟩

theorem C9_amended_termination_witness :
    TravTerminates (oneNodeGraph 7) (fun _ => 0) 1 3 (fun _ => 0) :=
  C9_amended_termination (oneNodeGraph 7) (fun _ => 0) 1 3 (fun _ => 0) (by decide)
    (by decide) (fun _ m hm => absurd hm (List.not_mem_nil m))

end SmallWorld
